import Mathlib

/-!
Verification of the slow-scan-print core against its specification.

The development shallowly embeds the Rust sources:
  * src/input.rs   : InputSource, ConcatInputSource, ErrorAction, open/read
  * src/lib.rs     : SlowScanConfig, slow_scan_write_by_chunks, slow_scan_write_by_chars
  * src/output.rs  : slow_scan_write_use_chars (older writer iteration)

Machine integers that matter (byte values, u32 chunk counts, Duration in
nanoseconds) are modelled as Nat; Rust Duration division by a u32 is floor
division on total nanoseconds, which is Nat division here.  External
nondeterminism (what the OS returns for a read on stdin or a file, whether a
sink write/flush fails) is passed in as explicit data: each non-empty input
source carries the outcome its next delegated read would produce, and the
output sink is driven by an oracle giving the outcome of each successive
write/flush operation.  A Rust panic (out-of-bounds index) is an explicit
result constructor, never silently ignored.
-/

namespace SlowScanPrint

/-- Abstract stand-in for Rust std io::Error: only identity matters to the
claims, so it is a tagged value. -/
structure IoError where
  code : Nat
deriving DecidableEq, Repr

/-- Outcome of one delegated read on an underlying OS handle: the bytes
placed into the caller's buffer (the returned count is their length), or an
I/O error.  Models the result of Stdin::read / File::read. -/
inductive ReadOutcome where
  | ok (data : List Nat)
  | err (e : IoError)
deriving DecidableEq, Repr

/-- Embedding of enum InputSource from src/input.rs.  Stdin and File own an
OS handle; here the handle is abstracted to the outcome its next read would
produce.  Empty owns nothing. -/
inductive InputSource where
  | Stdin (next : ReadOutcome)
  | File (next : ReadOutcome)
  | Empty
deriving DecidableEq, Repr

/-- Embedding of impl io::Read for InputSource (src/input.rs lines 127-135):
Stdin and File delegate to their handle, Empty returns Ok(0) (no bytes). -/
def InputSource.read : InputSource → ReadOutcome
  | .Stdin it => it
  | .File it => it
  | .Empty => .ok []

/-- Embedding of enum ErrorAction from src/input.rs: the verdict an error
handler returns.  Abort carries the io::Error to be returned, exactly as in
the source. -/
inductive ErrorAction where
  | Continue
  | Abort (e : IoError)
deriving DecidableEq, Repr

/-- Embedding of struct ConcatInputSource (src/input.rs lines 167-174)
minus the error-handler closure, which is passed to read explicitly so the
state stays first-order. -/
structure ConcatInputSource where
  sources : List InputSource
  current : Nat
deriving DecidableEq, Repr

/-- Result of one ConcatInputSource::read call: Ok with the bytes read and
the successor state, Err with the io::Error and the successor state, or a
Rust panic.  panicked models the out-of-bounds index panic that
self.sources[self.current] raises when current is not a valid index. -/
inductive ReadResult where
  | ok (data : List Nat) (s : ConcatInputSource)
  | err (e : IoError) (s : ConcatInputSource)
  | panicked
deriving DecidableEq, Repr

/-- Embedding of impl io::Read for ConcatInputSource (src/input.rs lines
206-222).  The second component of the result is the list of
(error, index) invocations of the error handler made during the call, so
that invocation counts are part of the semantics.  The source line
`let source = &mut self.sources[self.current];` panics when current is out
of bounds, which is the `none` branch here. -/
def ConcatInputSource.read (s : ConcatInputSource)
    (error_handler : IoError → Nat → ErrorAction) :
    ReadResult × List (IoError × Nat) :=
  match s.sources[s.current]? with
  | none => (.panicked, [])
  | some source =>
    match source.read with
    | .ok [] => (.ok [] { s with current := s.current + 1 }, [])
    | .ok (b :: bs) => (.ok (b :: bs) s, [])
    | .err it =>
      match error_handler it s.current with
      | .Continue => (.ok [] { s with current := s.current + 1 }, [(it, s.current)])
      | .Abort e2 => (.err e2 s, [(it, s.current)])

/-- A handler that always continues; used to instantiate witnesses. -/
def alwaysContinue : IoError → Nat → ErrorAction := fun _ _ => .Continue

/-- Claim C1: the claim says a read with the cursor at or past the end of
the sources sequence returns Ok(0); the code instead evaluates
self.sources[self.current], which is an out-of-bounds index and panics.
This theorem evaluates the embedded code there: every such read panics. -/
theorem concat_read_past_end_panics (s : ConcatInputSource)
    (h : IoError → Nat → ErrorAction) (hc : s.sources.length ≤ s.current) :
    (s.read h).1 = .panicked := by
  unfold ConcatInputSource.read
  rw [List.getElem?_eq_none hc]

/-- Witness for C1 at a concrete input: a ConcatInputSource holding a single
Empty source whose cursor has already moved past it. -/
theorem concat_read_past_end_panics_witness :
    ((ConcatInputSource.mk [InputSource.Empty] 1).read alwaysContinue).1
      = .panicked :=
  concat_read_past_end_panics (ConcatInputSource.mk [InputSource.Empty] 1)
    alwaysContinue (by decide)

/-- Counterexample for claim C2: as stated, the claim requires the failing
read's error to be propagated unchanged on Abort.  The handler, however,
owns the error and the code returns whatever io::Error the Abort verdict
carries: with a source failing with error 1 and a handler answering
Abort(error 2), the call returns error 2, not the original error 1. -/
theorem concat_read_abort_error_substituted :
    (((ConcatInputSource.mk [InputSource.File (.err ⟨1⟩)] 0).read
        (fun _ _ => .Abort ⟨2⟩)).1
      = .err ⟨2⟩ (ConcatInputSource.mk [InputSource.File (.err ⟨1⟩)] 0))
    ∧ (IoError.mk 2 ≠ IoError.mk 1) := by
  constructor
  · rfl
  · decide

/-- Claim C2 (amended): when the delegated read fails with error e, the
handler is invoked exactly once, with e and the current cursor index; on
verdict Continue the cursor advances by one and the call returns Ok(0); on
verdict Abort(e2) the error e2 carried by the verdict is propagated (the
original error exactly when the handler returns it unchanged) and the
cursor stays at the failing index. -/
theorem concat_read_error_handling (s : ConcatInputSource)
    (h : IoError → Nat → ErrorAction) (source : InputSource) (e : IoError)
    (hsrc : s.sources[s.current]? = some source)
    (hread : source.read = .err e) :
    (s.read h).2 = [(e, s.current)]
    ∧ (h e s.current = .Continue →
        (s.read h).1 = .ok [] { s with current := s.current + 1 })
    ∧ (∀ e2, h e s.current = .Abort e2 → (s.read h).1 = .err e2 s) := by
  unfold ConcatInputSource.read
  simp only [hsrc, hread]
  refine ⟨?_, ?_, ?_⟩
  · cases hv : h e s.current <;> simp [hv]
  · intro hv; simp [hv]
  · intro e2 hv; simp [hv]

/-- Witness for C2 (amended) at a concrete input: a single File source
failing with error 7, a handler that aborts with the same error it is
given, cursor at index 0. -/
theorem concat_read_error_handling_witness :
    ((ConcatInputSource.mk [InputSource.File (.err ⟨7⟩)] 0).read
        (fun e _ => .Abort e)).2 = [(⟨7⟩, 0)]
    ∧ (((ConcatInputSource.mk [InputSource.File (.err ⟨7⟩)] 0).read
        (fun e _ => .Abort e)).1
      = .err ⟨7⟩ (ConcatInputSource.mk [InputSource.File (.err ⟨7⟩)] 0)) := by
  have h := concat_read_error_handling
    (ConcatInputSource.mk [InputSource.File (.err ⟨7⟩)] 0)
    (fun e _ => .Abort e) (InputSource.File (.err ⟨7⟩)) ⟨7⟩ rfl rfl
  exact ⟨h.1, h.2.2 ⟨7⟩ rfl⟩

/-- Claim C7: with the cursor at a valid index, a delegated read yielding no
bytes advances the cursor by exactly one and returns Ok(0) for this call
(no silent skip to the next source), and a delegated read yielding bytes
returns exactly those bytes with the cursor unchanged. -/
theorem concat_read_valid_cursor (s : ConcatInputSource)
    (h : IoError → Nat → ErrorAction) (source : InputSource)
    (hsrc : s.sources[s.current]? = some source) :
    (source.read = .ok [] →
      s.read h = (.ok [] { s with current := s.current + 1 }, []))
    ∧ (∀ b bs, source.read = .ok (b :: bs) →
      s.read h = (.ok (b :: bs) s, [])) := by
  unfold ConcatInputSource.read
  refine ⟨?_, ?_⟩
  · intro hread; simp only [hsrc, hread]
  · intro b bs hread; simp only [hsrc, hread]

/-- Witness for C7 at concrete inputs: an exhausted File source (zero-byte
read) advances the cursor, and a File source producing byte 42 returns it
with the cursor unchanged. -/
theorem concat_read_valid_cursor_witness :
    ((ConcatInputSource.mk [InputSource.File (.ok [])] 0).read alwaysContinue
      = (.ok [] (ConcatInputSource.mk [InputSource.File (.ok [])] 1), []))
    ∧ ((ConcatInputSource.mk [InputSource.File (.ok [42])] 0).read
        alwaysContinue
      = (.ok [42] (ConcatInputSource.mk [InputSource.File (.ok [42])] 0), [])) := by
  refine ⟨?_, ?_⟩
  · exact (concat_read_valid_cursor (ConcatInputSource.mk
      [InputSource.File (.ok [])] 0) alwaysContinue
      (InputSource.File (.ok [])) rfl).1 rfl
  · exact (concat_read_valid_cursor (ConcatInputSource.mk
      [InputSource.File (.ok [42])] 0) alwaysContinue
      (InputSource.File (.ok [42])) rfl).2 42 [] rfl

/-- Abstract stand-in for the OS error carried by a failed File::open. -/
structure OsError where
  code : Nat
deriving DecidableEq, Repr

/-- Embedding of enum ErrorKind from src/input.rs lines 230-244. -/
inductive ErrorKind where
  | UriIsEmpty
  | CannotOpenUri
deriving DecidableEq, Repr

/-- Embedding of struct Error from src/input.rs lines 255-260: kind, the
URI involved, and the optional underlying OS error as cause. -/
structure InputError where
  kind : ErrorKind
  uri : String
  source : Option OsError
deriving DecidableEq, Repr

/-- Embedding of InputSource::open (src/input.rs lines 56-74).  The two OS
effects are passed in as data: stdinNext abstracts the handle io::stdin()
returns, and fsOpen abstracts File::open, giving for each path either the
opened file (abstracted to its next read outcome) or the OS error.  The
Rust name `open` is a Lean keyword, hence openUri. -/
def InputSource.openUri (stdinNext : ReadOutcome)
    (fsOpen : String → Except OsError ReadOutcome) (uri : String) :
    Except InputError InputSource :=
  if uri = "" then
    .error { kind := .UriIsEmpty, uri := uri, source := none }
  else if uri = "-" then
    .ok (.Stdin stdinNext)
  else
    match fsOpen uri with
    | .ok f => .ok (.File f)
    | .error it => .error { kind := .CannotOpenUri, uri := uri, source := some it }

/-- Claim C6: open on the empty string fails with UriIsEmpty; open on "-"
yields the Stdin variant; open on any other URI yields the File variant
when File::open succeeds, and otherwise fails with CannotOpenUri carrying
the original URI and the OS error as cause. -/
theorem open_uri_spec (stdinNext : ReadOutcome)
    (fsOpen : String → Except OsError ReadOutcome) :
    (InputSource.openUri stdinNext fsOpen ""
      = .error { kind := .UriIsEmpty, uri := "", source := none })
    ∧ (InputSource.openUri stdinNext fsOpen "-" = .ok (.Stdin stdinNext))
    ∧ (∀ uri, uri ≠ "" → uri ≠ "-" →
        (∃ f, fsOpen uri = .ok f
          ∧ InputSource.openUri stdinNext fsOpen uri = .ok (.File f))
        ∨ (∃ e, fsOpen uri = .error e
          ∧ InputSource.openUri stdinNext fsOpen uri
            = .error { kind := .CannotOpenUri, uri := uri, source := some e })) := by
  refine ⟨rfl, rfl, ?_⟩
  intro uri h1 h2
  cases hfs : fsOpen uri with
  | ok f => exact Or.inl ⟨f, rfl, by simp [InputSource.openUri, h1, h2, hfs]⟩
  | error e => exact Or.inr ⟨e, rfl, by simp [InputSource.openUri, h1, h2, hfs]⟩

/-- Witness for C6 at concrete inputs: a file system where "a" opens as an
empty file and every other path fails with OS error 2. -/
theorem open_uri_spec_witness :
    (InputSource.openUri (.ok []) (fun p => if p = "a" then .ok (.ok []) else .error ⟨2⟩) ""
      = .error { kind := .UriIsEmpty, uri := "", source := none })
    ∧ (InputSource.openUri (.ok []) (fun p => if p = "a" then .ok (.ok []) else .error ⟨2⟩) "-"
      = .ok (.Stdin (.ok [])))
    ∧ ((∃ f, (fun p => if p = "a" then Except.ok (ReadOutcome.ok []) else Except.error (OsError.mk 2)) "b" = .ok f
          ∧ InputSource.openUri (.ok []) (fun p => if p = "a" then .ok (.ok []) else .error ⟨2⟩) "b" = .ok (.File f))
        ∨ (∃ e, (fun p => if p = "a" then Except.ok (ReadOutcome.ok []) else Except.error (OsError.mk 2)) "b" = .error e
          ∧ InputSource.openUri (.ok []) (fun p => if p = "a" then .ok (.ok []) else .error ⟨2⟩) "b"
            = .error { kind := .CannotOpenUri, uri := "b", source := some e })) := by
  have h := open_uri_spec (.ok [])
    (fun p => if p = "a" then .ok (.ok []) else .error ⟨2⟩)
  exact ⟨h.1, h.2.1, h.2.2 "b" (by decide) (by decide)⟩

/-- Embedding of struct SlowScanConfig from src/lib.rs lines 33-84.
Durations are total nanosecond counts. -/
structure SlowScanConfig where
  base_delay : Nat
  full_width_delay : Nat
  control_char_delay : Nat
  tail_delay : Bool
deriving DecidableEq, Repr

/-- Embedding of SlowScanConfig::set_base_delay_from_expected_total_duration
(src/lib.rs lines 181-197).  chunk_count is a u32; saturating_sub on u32 is
Nat subtraction here, and Duration / u32 is floor division on total
nanoseconds, which is Nat division. -/
def SlowScanConfig.set_base_delay_from_expected_total_duration
    (c : SlowScanConfig) (expectation : Nat) (chunk_count : Nat) :
    SlowScanConfig :=
  let delay_count := if c.tail_delay then chunk_count else chunk_count - 1
  if delay_count > 0 then
    { c with base_delay := expectation / delay_count }
  else
    { c with base_delay := 0 }

/-- Claim C5: the derived base delay is the target total duration divided by
the number of delay intervals (the chunk count when tail_delay is set, one
less otherwise, never below zero), and zero when there are no intervals;
in particular 1000 ms over 10 chunks with tail delay gives 100 ms, and
1000 ms over 11 chunks without tail delay also gives 100 ms. -/
theorem set_base_delay_from_expected_total_duration_spec :
    (∀ (c : SlowScanConfig) (expectation chunk_count : Nat),
      (c.set_base_delay_from_expected_total_duration expectation
          chunk_count).base_delay
        = (if (if c.tail_delay then chunk_count else chunk_count - 1) > 0
            then expectation / (if c.tail_delay then chunk_count else chunk_count - 1)
            else 0))
    ∧ ((SlowScanConfig.mk 0 0 0 true).set_base_delay_from_expected_total_duration
        1000000000 10).base_delay = 100000000
    ∧ ((SlowScanConfig.mk 0 0 0 false).set_base_delay_from_expected_total_duration
        1000000000 11).base_delay = 100000000 := by
  refine ⟨?_, by decide, by decide⟩
  intro c expectation chunk_count
  unfold SlowScanConfig.set_base_delay_from_expected_total_duration
  by_cases h : (if c.tail_delay then chunk_count else chunk_count - 1) > 0 <;>
    simp [h]

/-- Claim C10: deriving the base delay from a total duration changes only
the base_delay field; full_width_delay, control_char_delay and tail_delay
are untouched. -/
theorem set_base_delay_from_expected_total_duration_frame
    (c : SlowScanConfig) (expectation chunk_count : Nat) :
    ((c.set_base_delay_from_expected_total_duration expectation
        chunk_count).full_width_delay = c.full_width_delay)
    ∧ ((c.set_base_delay_from_expected_total_duration expectation
        chunk_count).control_char_delay = c.control_char_delay)
    ∧ ((c.set_base_delay_from_expected_total_duration expectation
        chunk_count).tail_delay = c.tail_delay) := by
  unfold SlowScanConfig.set_base_delay_from_expected_total_duration
  by_cases h : (if c.tail_delay then chunk_count else chunk_count - 1) > 0 <;>
    simp [h]

/-- UTF-8 encoding of a scalar value, as Rust char::encode_utf8 produces it
(src/lib.rs line 414 and src/output.rs line 139 call it): 1 to 4 bytes
depending on the code point. -/
def encodeUtf8 (c : Char) : List Nat :=
  let n := c.toNat
  if n < 0x80 then
    [n]
  else if n < 0x800 then
    [0xC0 ||| (n >>> 6), 0x80 ||| (n &&& 0x3F)]
  else if n < 0x10000 then
    [0xE0 ||| (n >>> 12), 0x80 ||| ((n >>> 6) &&& 0x3F), 0x80 ||| (n &&& 0x3F)]
  else
    [0xF0 ||| (n >>> 18), 0x80 ||| ((n >>> 12) &&& 0x3F),
      0x80 ||| ((n >>> 6) &&& 0x3F), 0x80 ||| (n &&& 0x3F)]

/-- The 4-byte buffer slow_scan_write_use_chars hands to write_all
(src/output.rs lines 138-140): `let mut buf = [0; 4]` freshly zeroed each
iteration, encode_utf8 fills a prefix, and `write_all(&buf)` sends all four
bytes, so short encodings are padded with trailing zero bytes. -/
def encodeUtf8Padded (c : Char) : List Nat :=
  encodeUtf8 c ++ List.replicate (4 - (encodeUtf8 c).length) 0

/-- The sink's failure behaviour, supplied from outside: for the n-th
write/flush operation attempted on the sink (counted from 0), either none
(the operation succeeds) or some e (it fails with io::Error e). -/
def SinkOracle := Nat → Option IoError

/-- A sink that never fails. -/
def noFailOracle : SinkOracle := fun _ => none

/-- State of the sink: the bytes successfully written so far and the number
of write/flush operations successfully performed. -/
structure SinkState where
  contents : List Nat
  ops : Nat
deriving DecidableEq, Repr

/-- Write::write_all on the modelled sink: consult the oracle for this
operation; on success append the bytes. -/
def writeAll (o : SinkOracle) (s : SinkState) (data : List Nat) :
    Except IoError SinkState :=
  match o s.ops with
  | some e => .error e
  | none => .ok { contents := s.contents ++ data, ops := s.ops + 1 }

/-- Write::flush on the modelled sink: consult the oracle; flushing appends
nothing. -/
def flushSink (o : SinkOracle) (s : SinkState) : Except IoError SinkState :=
  match o s.ops with
  | some e => .error e
  | none => .ok { contents := s.contents, ops := s.ops + 1 }

/-- Observable history of one writer invocation: the sink state plus the
durations (nanoseconds) of the sleeps performed, in order. -/
structure WriteTrace where
  sink : SinkState
  sleeps : List Nat
deriving DecidableEq, Repr

/-- The all-empty starting trace. -/
def emptyTrace : WriteTrace := { sink := { contents := [], ops := 0 }, sleeps := [] }

/-- Embedding of slow_scan_write_by_chunks (src/lib.rs lines 369-398).  The
peekable while-let loop becomes list recursion; `iter.peek().is_some()` is
`!rest.isEmpty`.  A failing write_all or flush propagates the error with
the trace reached so far (the `?` operator); a sleep appends its duration
to the trace.  Both the stable `sleep(config.base_delay)` path and the
unstable `now += config.base_delay; sleep_until(now)` path request the same
duration per unit, which is what the trace records. -/
def slow_scan_write_by_chunks (o : SinkOracle) (chunks : List (List Nat))
    (config : SlowScanConfig) (t : WriteTrace) :
    Except (IoError × WriteTrace) WriteTrace :=
  match chunks with
  | [] => .ok t
  | it :: rest =>
    match writeAll o t.sink it with
    | .error e => .error (e, t)
    | .ok s1 =>
      match flushSink o s1 with
      | .error e => .error (e, { t with sink := s1 })
      | .ok s2 =>
        let t2 : WriteTrace :=
          if !rest.isEmpty || config.tail_delay then
            { sink := s2, sleeps := t.sleeps ++ [config.base_delay] }
          else
            { sink := s2, sleeps := t.sleeps }
        slow_scan_write_by_chunks o rest config t2

/-- The delay slow_scan_write_by_chars selects for a character (src/lib.rs
lines 418-449): full_width_delay when the CJK width is Some(2),
control_char_delay when it is None, base_delay otherwise.  The width
function of the unicode-width crate is passed in as w. -/
def delayFor (w : Char → Option Nat) (config : SlowScanConfig) (c : Char) : Nat :=
  match w c with
  | some 2 => config.full_width_delay
  | none => config.control_char_delay
  | _ => config.base_delay

/-- Embedding of slow_scan_write_by_chars (src/lib.rs lines 400-454): write
the exact UTF-8 encoding of the character (`it.encode_utf8(&mut buf).as_ref()`
is only the encoded prefix), flush, and if another unit follows or
tail_delay is set, sleep for the classified delay. -/
def slow_scan_write_by_chars (o : SinkOracle) (w : Char → Option Nat)
    (chars : List Char) (config : SlowScanConfig) (t : WriteTrace) :
    Except (IoError × WriteTrace) WriteTrace :=
  match chars with
  | [] => .ok t
  | it :: rest =>
    match writeAll o t.sink (encodeUtf8 it) with
    | .error e => .error (e, t)
    | .ok s1 =>
      match flushSink o s1 with
      | .error e => .error (e, { t with sink := s1 })
      | .ok s2 =>
        let t2 : WriteTrace :=
          if !rest.isEmpty || config.tail_delay then
            { sink := s2, sleeps := t.sleeps ++ [delayFor w config it] }
          else
            { sink := s2, sleeps := t.sleeps }
        slow_scan_write_by_chars o w rest config t2

/-- Loop body of slow_scan_write_use_chars (src/output.rs lines 135-155):
holding the current character and the rest of the iterator, write the whole
4-byte buffer, flush, and if a next character exists sleep according to the
current character's CJK width — double delay for width 2, no sleep at all
for width None, the base delay otherwise. -/
def slow_scan_write_use_chars_loop (o : SinkOracle) (w : Char → Option Nat)
    (halt_width_delay : Nat) (current : Char) (rest : List Char)
    (t : WriteTrace) : Except (IoError × WriteTrace) WriteTrace :=
  match writeAll o t.sink (encodeUtf8Padded current) with
  | .error e => .error (e, t)
  | .ok s1 =>
    match flushSink o s1 with
    | .error e => .error (e, { t with sink := s1 })
    | .ok s2 =>
      match rest with
      | [] => .ok { sink := s2, sleeps := t.sleeps }
      | c :: cs =>
        let t2 : WriteTrace :=
          match w current with
          | some 2 => { sink := s2, sleeps := t.sleeps ++ [halt_width_delay * 2] }
          | none => { sink := s2, sleeps := t.sleeps }
          | _ => { sink := s2, sleeps := t.sleeps ++ [halt_width_delay] }
        slow_scan_write_use_chars_loop o w halt_width_delay c cs t2

/-- Embedding of slow_scan_write_use_chars (src/output.rs lines 121-156):
an empty iterator returns Ok immediately, otherwise the current/next loop
runs with full_width_delay fixed to halt_width_delay * 2. -/
def slow_scan_write_use_chars (o : SinkOracle) (w : Char → Option Nat)
    (chars : List Char) (halt_width_delay : Nat) (t : WriteTrace) :
    Except (IoError × WriteTrace) WriteTrace :=
  match chars with
  | [] => .ok t
  | c :: cs => slow_scan_write_use_chars_loop o w halt_width_delay c cs t

/-- On a never-failing sink, slow_scan_write_by_chunks appends every chunk
in order, performs one write and one flush per chunk, and sleeps
base_delay after every chunk except the last, the last included exactly
when tail_delay is set. -/
theorem by_chunks_noFail (config : SlowScanConfig) :
    ∀ (chunks : List (List Nat)) (t : WriteTrace),
    slow_scan_write_by_chunks noFailOracle chunks config t
      = .ok { sink := { contents := t.sink.contents ++ chunks.flatten,
                        ops := t.sink.ops + 2 * chunks.length },
              sleeps := t.sleeps ++ List.replicate
                (if config.tail_delay then chunks.length else chunks.length - 1)
                config.base_delay } := by
  intro chunks
  induction chunks with
  | nil => intro t; simp [slow_scan_write_by_chunks]
  | cons c rest ih =>
    intro t
    rw [slow_scan_write_by_chunks]
    simp only [writeAll, flushSink, noFailOracle]
    cases rest with
    | nil =>
      by_cases ht : config.tail_delay <;>
        simp [slow_scan_write_by_chunks, ht]
    | cons c2 cs =>
      rw [ih]
      by_cases ht : config.tail_delay <;>
        simp [ht, List.replicate_succ] <;> omega

/-- On a never-failing sink, slow_scan_write_by_chars writes the exact
UTF-8 encoding of every character in order, performs one write and one
flush per character, and sleeps the classified delay after every character
except the last, the last included exactly when tail_delay is set. -/
theorem by_chars_noFail (w : Char → Option Nat) (config : SlowScanConfig) :
    ∀ (chars : List Char) (t : WriteTrace),
    slow_scan_write_by_chars noFailOracle w chars config t
      = .ok { sink := { contents := t.sink.contents ++ (chars.map encodeUtf8).flatten,
                        ops := t.sink.ops + 2 * chars.length },
              sleeps := t.sleeps ++
                (if config.tail_delay then chars.map (delayFor w config)
                 else chars.dropLast.map (delayFor w config)) } := by
  intro chars
  induction chars with
  | nil => intro t; simp [slow_scan_write_by_chars]
  | cons c rest ih =>
    intro t
    rw [slow_scan_write_by_chars]
    simp only [writeAll, flushSink, noFailOracle]
    cases rest with
    | nil =>
      by_cases ht : config.tail_delay <;>
        simp [slow_scan_write_by_chars, ht]
    | cons c2 cs =>
      rw [ih]
      by_cases ht : config.tail_delay <;>
        simp [ht, List.dropLast] <;> omega

/-- Claim C4: on a never-failing sink both writers emit the units in input
order with one write and one flush per unit, and sleep after unit i exactly
when i is not last or tail_delay is set; in chunk mode every sleep is
base_delay, in character mode the sleep is the delay selected by the CJK
width classifier.  Instantiating at the empty sequence gives success with
no writes and no sleeps, and at a single unit without tail delay gives no
sleep at all. -/
theorem writer_sleep_discipline :
    (∀ (chunks : List (List Nat)) (config : SlowScanConfig),
      slow_scan_write_by_chunks noFailOracle chunks config emptyTrace
        = .ok { sink := { contents := chunks.flatten, ops := 2 * chunks.length },
                sleeps := List.replicate
                  (if config.tail_delay then chunks.length else chunks.length - 1)
                  config.base_delay })
    ∧ (∀ (w : Char → Option Nat) (chars : List Char) (config : SlowScanConfig),
      slow_scan_write_by_chars noFailOracle w chars config emptyTrace
        = .ok { sink := { contents := (chars.map encodeUtf8).flatten,
                          ops := 2 * chars.length },
                sleeps := if config.tail_delay then chars.map (delayFor w config)
                          else chars.dropLast.map (delayFor w config) }) := by
  constructor
  · intro chunks config
    simpa [emptyTrace] using by_chunks_noFail config chunks emptyTrace
  · intro w chars config
    simpa [emptyTrace] using by_chars_noFail w config chars emptyTrace

/-- Whenever slow_scan_write_by_chars returns Ok, the bytes that reached
the sink during the call are exactly the concatenated UTF-8 encodings of
the characters, for any sink behaviour. -/
theorem by_chars_ok_contents (w : Char → Option Nat) (config : SlowScanConfig) :
    ∀ (chars : List Char) (o : SinkOracle) (t u : WriteTrace),
    slow_scan_write_by_chars o w chars config t = .ok u →
    u.sink.contents = t.sink.contents ++ (chars.map encodeUtf8).flatten := by
  intro chars
  induction chars with
  | nil =>
    intro o t u h
    simp only [slow_scan_write_by_chars, Except.ok.injEq] at h
    subst h
    simp
  | cons c rest ih =>
    intro o t u h
    rw [slow_scan_write_by_chars] at h
    cases ho1 : o t.sink.ops with
    | some e => simp [writeAll, ho1] at h
    | none =>
      cases ho2 : o (t.sink.ops + 1) with
      | some e => simp [writeAll, flushSink, ho1, ho2] at h
      | none =>
        simp only [writeAll, flushSink, ho1, ho2] at h
        split at h <;> rw [ih _ _ _ h] <;> simp

/-- Claim C3: for slow_scan_write_by_chars every successful run leaves the
sink holding exactly the concatenation of the characters' UTF-8 encodings;
slow_scan_write_use_chars, however, writes the whole 4-byte scratch buffer
for every character, so the one-byte character A (code 65) reaches the sink
as the four bytes 65, 0, 0, 0 — padded, not the exact encoding. -/
theorem char_write_utf8_exact :
    (∀ (o : SinkOracle) (w : Char → Option Nat) (chars : List Char)
        (config : SlowScanConfig) (u : WriteTrace),
      slow_scan_write_by_chars o w chars config emptyTrace = .ok u →
      u.sink.contents = (chars.map encodeUtf8).flatten)
    ∧ (∀ (w : Char → Option Nat) (d : Nat),
      slow_scan_write_use_chars noFailOracle w [Char.ofNat 65] d emptyTrace
        = .ok { sink := { contents := [65, 0, 0, 0], ops := 2 }, sleeps := [] }) := by
  constructor
  · intro o w chars config u h
    simpa [emptyTrace] using by_chars_ok_contents w config chars o emptyTrace u h
  · intro w d
    have hA : encodeUtf8Padded (Char.ofNat 65) = [65, 0, 0, 0] := by decide
    simp [slow_scan_write_use_chars, slow_scan_write_use_chars_loop, writeAll,
      flushSink, noFailOracle, emptyTrace, hA]

/-- Witness for C3 at a concrete input: the single character A written
through slow_scan_write_by_chars on a never-failing sink yields exactly its
one-byte encoding. -/
theorem char_write_utf8_exact_witness :
    ({ sink := { contents := [65], ops := 2 }, sleeps := [] } : WriteTrace).sink.contents
      = (([Char.ofNat 65]).map encodeUtf8).flatten :=
  char_write_utf8_exact.1 noFailOracle (fun _ => some 1) [Char.ofNat 65]
    (SlowScanConfig.mk 3 4 5 false)
    { sink := { contents := [65], ops := 2 }, sleeps := [] }
    (by simp [slow_scan_write_by_chars, writeAll, flushSink, noFailOracle,
      emptyTrace, show encodeUtf8 (Char.ofNat 65) = [65] from by decide])

/-- First-failure behaviour of slow_scan_write_by_chunks: when every sink
operation before the failing one succeeds, a write failure on unit i (op
index ops + 2i) or a flush failure on unit i (op index ops + 2i + 1) makes
the call return that error at once, with only units before i (plus, for a
flush failure, unit i itself) in the sink and only the i sleeps that
preceded the failure performed. -/
theorem by_chunks_first_fail (config : SlowScanConfig) (e : IoError) :
    ∀ (i : Nat) (chunks : List (List Nat)) (o : SinkOracle) (t : WriteTrace),
    i < chunks.length →
    (∀ n, n < t.sink.ops + 2 * i → o n = none) →
    ((o (t.sink.ops + 2 * i) = some e →
        slow_scan_write_by_chunks o chunks config t
          = .error (e, { sink := { contents := t.sink.contents ++ (chunks.take i).flatten,
                                   ops := t.sink.ops + 2 * i },
                         sleeps := t.sleeps ++ List.replicate i config.base_delay }))
      ∧ (o (t.sink.ops + 2 * i) = none → o (t.sink.ops + 2 * i + 1) = some e →
        slow_scan_write_by_chunks o chunks config t
          = .error (e, { sink := { contents := t.sink.contents ++ (chunks.take (i+1)).flatten,
                                   ops := t.sink.ops + 2 * i + 1 },
                         sleeps := t.sleeps ++ List.replicate i config.base_delay }))) := by
  intro i
  induction i with
  | zero =>
    intro chunks o t hlen hnone
    cases chunks with
    | nil => simp at hlen
    | cons c rest =>
      constructor
      · intro hfail
        simp only [Nat.mul_zero, Nat.add_zero] at hfail
        rw [slow_scan_write_by_chunks]
        simp [writeAll, hfail]
      · intro hok hfail
        simp only [Nat.mul_zero, Nat.add_zero] at hok hfail
        rw [slow_scan_write_by_chunks]
        simp [writeAll, flushSink, hok, hfail]
  | succ j ih =>
    intro chunks o t hlen hnone
    cases chunks with
    | nil => simp at hlen
    | cons c rest =>
      cases rest with
      | nil => simp at hlen
      | cons c2 cs =>
        have h0 : o t.sink.ops = none := hnone _ (by omega)
        have h1 : o (t.sink.ops + 1) = none := hnone _ (by omega)
        have hlen2 : j < (c2 :: cs).length := by
          simp at hlen ⊢; omega
        have hnone2 : ∀ n,
            n < (t.sink.ops + 1 + 1) + 2 * j → o n = none := by
          intro n hn; exact hnone n (by omega)
        constructor
        · intro hfail
          rw [slow_scan_write_by_chunks]
          simp only [writeAll, flushSink, h0, h1]
          have hfail2 : o ((t.sink.ops + 1 + 1) + 2 * j) = some e := by
            rw [show (t.sink.ops + 1 + 1) + 2 * j = t.sink.ops + 2 * (j + 1) by ring]
            exact hfail
          have h2 := (ih (c2 :: cs) o
            ⟨⟨t.sink.contents ++ c, t.sink.ops + 1 + 1⟩,
              t.sleeps ++ [config.base_delay]⟩ hlen2 hnone2).1 hfail2
          simp only [List.isEmpty_cons, Bool.not_false, Bool.true_or, if_true] at h2 ⊢
          rw [h2]
          simp [List.replicate_succ, List.append_assoc]
          omega
        · intro hok hfail
          rw [slow_scan_write_by_chunks]
          simp only [writeAll, flushSink, h0, h1]
          have hok2 : o ((t.sink.ops + 1 + 1) + 2 * j) = none := by
            rw [show (t.sink.ops + 1 + 1) + 2 * j = t.sink.ops + 2 * (j + 1) by ring]
            exact hok
          have hfail2 : o ((t.sink.ops + 1 + 1) + 2 * j + 1) = some e := by
            rw [show (t.sink.ops + 1 + 1) + 2 * j + 1 = t.sink.ops + 2 * (j + 1) + 1 by ring]
            exact hfail
          have h2 := (ih (c2 :: cs) o
            ⟨⟨t.sink.contents ++ c, t.sink.ops + 1 + 1⟩,
              t.sleeps ++ [config.base_delay]⟩ hlen2 hnone2).2 hok2 hfail2
          simp only [List.isEmpty_cons, Bool.not_false, Bool.true_or, if_true] at h2 ⊢
          rw [h2]
          simp [List.replicate_succ, List.append_assoc]
          omega

/-- First-failure behaviour of slow_scan_write_by_chars, mirrored from the
chunk version: a write failure on character i (op index ops + 2i) or a
flush failure on character i (op index ops + 2i + 1) aborts at once with
that error, the sink holding only the encodings written before the failure
and only the i preceding classified sleeps performed. -/
theorem by_chars_first_fail (w : Char → Option Nat) (config : SlowScanConfig)
    (e : IoError) :
    ∀ (i : Nat) (chars : List Char) (o : SinkOracle) (t : WriteTrace),
    i < chars.length →
    (∀ n, n < t.sink.ops + 2 * i → o n = none) →
    ((o (t.sink.ops + 2 * i) = some e →
        slow_scan_write_by_chars o w chars config t
          = .error (e, { sink := { contents := t.sink.contents
                                     ++ ((chars.take i).map encodeUtf8).flatten,
                                   ops := t.sink.ops + 2 * i },
                         sleeps := t.sleeps
                           ++ (chars.take i).map (delayFor w config) }))
      ∧ (o (t.sink.ops + 2 * i) = none → o (t.sink.ops + 2 * i + 1) = some e →
        slow_scan_write_by_chars o w chars config t
          = .error (e, { sink := { contents := t.sink.contents
                                     ++ ((chars.take (i+1)).map encodeUtf8).flatten,
                                   ops := t.sink.ops + 2 * i + 1 },
                         sleeps := t.sleeps
                           ++ (chars.take i).map (delayFor w config) }))) := by
  intro i
  induction i with
  | zero =>
    intro chars o t hlen hnone
    cases chars with
    | nil => simp at hlen
    | cons c rest =>
      constructor
      · intro hfail
        simp only [Nat.mul_zero, Nat.add_zero] at hfail
        rw [slow_scan_write_by_chars]
        simp [writeAll, hfail]
      · intro hok hfail
        simp only [Nat.mul_zero, Nat.add_zero] at hok hfail
        rw [slow_scan_write_by_chars]
        simp [writeAll, flushSink, hok, hfail]
  | succ j ih =>
    intro chars o t hlen hnone
    cases chars with
    | nil => simp at hlen
    | cons c rest =>
      cases rest with
      | nil => simp at hlen
      | cons c2 cs =>
        have h0 : o t.sink.ops = none := hnone _ (by omega)
        have h1 : o (t.sink.ops + 1) = none := hnone _ (by omega)
        have hlen2 : j < (c2 :: cs).length := by
          simp at hlen ⊢; omega
        have hnone2 : ∀ n,
            n < (t.sink.ops + 1 + 1) + 2 * j → o n = none := by
          intro n hn; exact hnone n (by omega)
        constructor
        · intro hfail
          rw [slow_scan_write_by_chars]
          simp only [writeAll, flushSink, h0, h1]
          have hfail2 : o ((t.sink.ops + 1 + 1) + 2 * j) = some e := by
            rw [show (t.sink.ops + 1 + 1) + 2 * j = t.sink.ops + 2 * (j + 1) by ring]
            exact hfail
          have h2 := (ih (c2 :: cs) o
            ⟨⟨t.sink.contents ++ encodeUtf8 c, t.sink.ops + 1 + 1⟩,
              t.sleeps ++ [delayFor w config c]⟩ hlen2 hnone2).1 hfail2
          simp only [List.isEmpty_cons, Bool.not_false, Bool.true_or, if_true] at h2 ⊢
          rw [h2]
          simp [List.append_assoc]
          omega
        · intro hok hfail
          rw [slow_scan_write_by_chars]
          simp only [writeAll, flushSink, h0, h1]
          have hok2 : o ((t.sink.ops + 1 + 1) + 2 * j) = none := by
            rw [show (t.sink.ops + 1 + 1) + 2 * j = t.sink.ops + 2 * (j + 1) by ring]
            exact hok
          have hfail2 : o ((t.sink.ops + 1 + 1) + 2 * j + 1) = some e := by
            rw [show (t.sink.ops + 1 + 1) + 2 * j + 1 = t.sink.ops + 2 * (j + 1) + 1 by ring]
            exact hfail
          have h2 := (ih (c2 :: cs) o
            ⟨⟨t.sink.contents ++ encodeUtf8 c, t.sink.ops + 1 + 1⟩,
              t.sleeps ++ [delayFor w config c]⟩ hlen2 hnone2).2 hok2 hfail2
          simp only [List.isEmpty_cons, Bool.not_false, Bool.true_or, if_true] at h2 ⊢
          rw [h2]
          simp [List.append_assoc]
          omega

/-- Claim C8: in both writers, the first failing sink operation — the
write of unit i (op index 2i) or the flush of unit i (op index 2i + 1) —
makes the call return exactly that error immediately: the sink holds only
the units written before the failure (unit i itself only when its write
succeeded and its flush failed), the operation count stops at the failing
operation, no further sleep is recorded, and unit i is not retried. -/
theorem writer_error_aborts :
    (∀ (o : SinkOracle) (chunks : List (List Nat)) (config : SlowScanConfig)
        (e : IoError) (i : Nat),
      i < chunks.length → (∀ n, n < 2 * i → o n = none) →
      o (2 * i) = some e →
      slow_scan_write_by_chunks o chunks config emptyTrace
        = .error (e, { sink := { contents := (chunks.take i).flatten, ops := 2 * i },
                       sleeps := List.replicate i config.base_delay }))
    ∧ (∀ (o : SinkOracle) (chunks : List (List Nat)) (config : SlowScanConfig)
        (e : IoError) (i : Nat),
      i < chunks.length → (∀ n, n < 2 * i + 1 → o n = none) →
      o (2 * i + 1) = some e →
      slow_scan_write_by_chunks o chunks config emptyTrace
        = .error (e, { sink := { contents := (chunks.take (i+1)).flatten,
                                 ops := 2 * i + 1 },
                       sleeps := List.replicate i config.base_delay }))
    ∧ (∀ (o : SinkOracle) (w : Char → Option Nat) (chars : List Char)
        (config : SlowScanConfig) (e : IoError) (i : Nat),
      i < chars.length → (∀ n, n < 2 * i → o n = none) →
      o (2 * i) = some e →
      slow_scan_write_by_chars o w chars config emptyTrace
        = .error (e, { sink := { contents := ((chars.take i).map encodeUtf8).flatten,
                                 ops := 2 * i },
                       sleeps := (chars.take i).map (delayFor w config) }))
    ∧ (∀ (o : SinkOracle) (w : Char → Option Nat) (chars : List Char)
        (config : SlowScanConfig) (e : IoError) (i : Nat),
      i < chars.length → (∀ n, n < 2 * i + 1 → o n = none) →
      o (2 * i + 1) = some e →
      slow_scan_write_by_chars o w chars config emptyTrace
        = .error (e, { sink := { contents := ((chars.take (i+1)).map encodeUtf8).flatten,
                                 ops := 2 * i + 1 },
                       sleeps := (chars.take i).map (delayFor w config) })) := by
  refine ⟨?_, ?_, ?_, ?_⟩
  · intro o chunks config e i hlen hnone hfail
    have h := (by_chunks_first_fail config e i chunks o emptyTrace hlen
      (by intro n hn; exact hnone n (by simp [emptyTrace] at hn; omega))).1
      (by simp only [emptyTrace, Nat.zero_add]; exact hfail)
    simpa [emptyTrace] using h
  · intro o chunks config e i hlen hnone hfail
    have h := (by_chunks_first_fail config e i chunks o emptyTrace hlen
      (by intro n hn; exact hnone n (by simp [emptyTrace] at hn; omega))).2
      (by simp only [emptyTrace, Nat.zero_add]; exact hnone _ (by omega))
      (by simp only [emptyTrace, Nat.zero_add]; exact hfail)
    simpa [emptyTrace] using h
  · intro o w chars config e i hlen hnone hfail
    have h := (by_chars_first_fail w config e i chars o emptyTrace hlen
      (by intro n hn; exact hnone n (by simp [emptyTrace] at hn; omega))).1
      (by simp only [emptyTrace, Nat.zero_add]; exact hfail)
    simpa [emptyTrace] using h
  · intro o w chars config e i hlen hnone hfail
    have h := (by_chars_first_fail w config e i chars o emptyTrace hlen
      (by intro n hn; exact hnone n (by simp [emptyTrace] at hn; omega))).2
      (by simp only [emptyTrace, Nat.zero_add]; exact hnone _ (by omega))
      (by simp only [emptyTrace, Nat.zero_add]; exact hfail)
    simpa [emptyTrace] using h

/-- Witness for C8 at concrete inputs: failing the first write, the first
flush, the second write (character mode), and the first flush (character
mode), each on a small concrete sequence, produces exactly the predicted
aborted traces. -/
theorem writer_error_aborts_witness :
    (slow_scan_write_by_chunks (fun n => if n = 0 then some ⟨5⟩ else none)
        [[1], [2]] (SlowScanConfig.mk 3 4 5 false) emptyTrace
      = .error (⟨5⟩, { sink := { contents := [], ops := 0 }, sleeps := [] }))
    ∧ (slow_scan_write_by_chunks (fun n => if n = 1 then some ⟨5⟩ else none)
        [[1], [2]] (SlowScanConfig.mk 3 4 5 false) emptyTrace
      = .error (⟨5⟩, { sink := { contents := [1], ops := 1 }, sleeps := [] }))
    ∧ (slow_scan_write_by_chars (fun n => if n = 2 then some ⟨5⟩ else none)
        (fun _ => some 1) [Char.ofNat 65, Char.ofNat 66]
        (SlowScanConfig.mk 3 4 5 false) emptyTrace
      = .error (⟨5⟩, { sink := { contents := [65], ops := 2 }, sleeps := [3] }))
    ∧ (slow_scan_write_by_chars (fun n => if n = 1 then some ⟨5⟩ else none)
        (fun _ => some 1) [Char.ofNat 65, Char.ofNat 66]
        (SlowScanConfig.mk 3 4 5 false) emptyTrace
      = .error (⟨5⟩, { sink := { contents := [65], ops := 1 }, sleeps := [] })) := by
  refine ⟨?_, ?_, ?_, ?_⟩
  · exact writer_error_aborts.1 _ [[1], [2]] (SlowScanConfig.mk 3 4 5 false)
      ⟨5⟩ 0 (by decide) (by intro n hn; omega) rfl
  · exact writer_error_aborts.2.1 _ [[1], [2]] (SlowScanConfig.mk 3 4 5 false)
      ⟨5⟩ 0 (by decide) (by intro n hn; simp at hn; subst hn; rfl) rfl
  · exact writer_error_aborts.2.2.1 _ (fun _ => some 1)
      [Char.ofNat 65, Char.ofNat 66] (SlowScanConfig.mk 3 4 5 false)
      ⟨5⟩ 1 (by decide) (by intro n hn; rw [if_neg (by omega)]) rfl
  · exact writer_error_aborts.2.2.2 _ (fun _ => some 1)
      [Char.ofNat 65, Char.ofNat 66] (SlowScanConfig.mk 3 4 5 false)
      ⟨5⟩ 0 (by decide) (by intro n hn; simp at hn; subst hn; rfl) rfl

end SlowScanPrint
